import Mathlib

/-!
# OSC command codec — shallow embedding and verification

A shallow embedding of the OSC (Open Sound Control) command codec from
`src/main.rs` of the SDRust April-2018 challenge, together with proofs of the
specification's testable properties.

Modelling conventions:
* Byte buffers (`Vec<u8>` / `&[u8]`) are `List Nat`, each element a byte value.
* Rust `String` / `&str` values are lists of Unicode scalar values
  (`List Nat`); `str::as_bytes` is `utf8Encode`, `str::from_utf8` is
  `utf8Decode` (returning `none` exactly on the byte sequences Rust rejects).
* `i32` is `Int` (encoded modulo `2^32` in two's complement), `f32` is carried
  as its 32-bit big-endian bit pattern (`Nat`): Rust's `write_f32`/`read_f32`
  are exact bit-pattern conversions, so the codec never inspects the float
  value itself.
* The source signals parse failures with panics/asserts; per the spec's error
  model (§7, which abstracts those panics into recoverable error kinds), the
  embedding returns `Except DecodeError` with
  - `MalformedMessage` for a missing null terminator, invalid UTF-8, and a
    tag block whose first character is not `','` (including an empty block);
  - `UnsupportedType c` for an unrecognised type-tag character;
  - `TruncatedBuffer` for any slice that would run past the end of the buffer
    (Rust's out-of-range slicing panics).
-/

/-- Is `b` a UTF-8 continuation byte (`0x80 ≤ b < 0xC0`)? -/
def isCont (b : Nat) : Bool := 0x80 ≤ b && b < 0xC0

/-- Fuel-driven UTF-8 decoder: decodes a byte list into the list of Unicode
scalar values, or `none` if the bytes are not valid UTF-8 under the exact
rules Rust's `str::from_utf8` enforces (RFC 3629: no continuation-byte leads,
no overlong forms, no surrogates, nothing above `0x10FFFF`). The fuel only
bounds recursion depth; each step consumes at least one byte, so fuel equal to
the list length always suffices. -/
def utf8DecodeAux : Nat → List Nat → Option (List Nat)
  | _, [] => some []
  | 0, _ :: _ => none
  | fuel + 1, b0 :: rest =>
    if b0 < 0x80 then
      (utf8DecodeAux fuel rest).map (b0 :: ·)
    else if b0 < 0xC2 then
      none
    else if b0 < 0xE0 then
      match rest with
      | b1 :: rest2 =>
        if isCont b1 then
          (utf8DecodeAux fuel rest2).map (((b0 - 0xC0) * 0x40 + (b1 - 0x80)) :: ·)
        else none
      | [] => none
    else if b0 < 0xF0 then
      match rest with
      | b1 :: b2 :: rest3 =>
        if (if b0 = 0xE0 then decide (0xA0 ≤ b1 && b1 < 0xC0)
            else if b0 = 0xED then decide (0x80 ≤ b1 && b1 < 0xA0)
            else isCont b1) && isCont b2 then
          (utf8DecodeAux fuel rest3).map
            ((((b0 - 0xE0) * 0x40 + (b1 - 0x80)) * 0x40 + (b2 - 0x80)) :: ·)
        else none
      | _ => none
    else if b0 < 0xF5 then
      match rest with
      | b1 :: b2 :: b3 :: rest4 =>
        if (if b0 = 0xF0 then decide (0x90 ≤ b1 && b1 < 0xC0)
            else if b0 = 0xF4 then decide (0x80 ≤ b1 && b1 < 0x90)
            else isCont b1) && isCont b2 && isCont b3 then
          (utf8DecodeAux fuel rest4).map
            (((((b0 - 0xF0) * 0x40 + (b1 - 0x80)) * 0x40 + (b2 - 0x80)) * 0x40
              + (b3 - 0x80)) :: ·)
        else none
      | _ => none
    else none

/-- Rust's `str::from_utf8` on a byte list: the Unicode scalar values, or
`none` on invalid UTF-8. -/
def utf8Decode (l : List Nat) : Option (List Nat) :=
  utf8DecodeAux l.length l

/-- UTF-8 encoding of one Unicode scalar value (`char` → bytes). -/
def utf8EncodeChar (c : Nat) : List Nat :=
  if c < 0x80 then [c]
  else if c < 0x800 then [0xC0 + c / 0x40, 0x80 + c % 0x40]
  else if c < 0x10000 then
    [0xE0 + c / 0x1000, 0x80 + c / 0x40 % 0x40, 0x80 + c % 0x40]
  else
    [0xF0 + c / 0x40000, 0x80 + c / 0x1000 % 0x40, 0x80 + c / 0x40 % 0x40,
     0x80 + c % 0x40]

/-- Rust's `str::as_bytes`: UTF-8 encoding of a string (list of scalar
values). -/
def utf8Encode (s : List Nat) : List Nat := (s.map utf8EncodeChar).flatten

/-- Index of the first `0` byte in the buffer
(`buf.iter().position(|&x| x == 0)` in the source). -/
def findNull : List Nat → Option Nat
  | [] => none
  | b :: rest => if b = 0 then some 0 else (findNull rest).map (· + 1)

/-- Error kinds of the codec, per the spec's error model (§7). -/
inductive DecodeError where
  | MalformedMessage : DecodeError
  | UnsupportedType : Nat → DecodeError
  | TruncatedBuffer : DecodeError
deriving DecidableEq, Repr

/-- `fn pad(buf: &mut Vec<u8>)`: appends null bytes until the buffer length is
a multiple of 4; appends nothing when already aligned. -/
def pad (buf : List Nat) : List Nat :=
  let m := buf.length % 4
  if m ≠ 0 then buf ++ List.replicate (4 - m) 0 else buf

/-- `fn encode_string(s: &str, buf: &mut Vec<u8>)`: UTF-8 bytes, a null
terminator, then alignment padding. -/
def encode_string (s : List Nat) (buf : List Nat) : List Nat :=
  pad (buf ++ utf8Encode s ++ [0])

/-- `fn decode_string(buf: &[u8]) -> (&str, &[u8])`: finds the first null
byte (`MalformedMessage` if none), decodes the bytes before it as UTF-8
(`MalformedMessage` if invalid), then "unpads": when the terminator index is
a multiple of 4 the remainder starts at the terminator itself
(`&buf[idx..]`), otherwise `4 - idx % 4` extra bytes are skipped
(`&buf[idx + 4 - m..]`, whose out-of-range panic is `TruncatedBuffer`). -/
def decode_string (buf : List Nat) : Except DecodeError (List Nat × List Nat) :=
  match findNull buf with
  | none => .error .MalformedMessage
  | some idx =>
    match utf8Decode (buf.take idx) with
    | none => .error .MalformedMessage
    | some s =>
      let m := idx % 4
      if m = 0 then .ok (s, buf.drop idx)
      else if idx + (4 - m) ≤ buf.length then .ok (s, buf.drop (idx + (4 - m)))
      else .error .TruncatedBuffer

/-- `enum Argument`: the four OSC argument variants. `String` carries scalar
values, `Integer` a signed 32-bit value, `Float` the 32-bit bit pattern,
`Binary` raw bytes. -/
inductive Argument where
  | String : List Nat → Argument
  | Integer : Int → Argument
  | Float : Nat → Argument
  | Binary : List Nat → Argument
deriving DecidableEq, Repr

/-- `struct Command`: an address pattern plus ordered arguments. -/
structure Command where
  address_pattern : List Nat
  arguments : List Argument
deriving DecidableEq, Repr

/-- Big-endian bytes of a 32-bit unsigned value. -/
def bytesOfU32 (n : Nat) : List Nat :=
  [n / 0x1000000 % 0x100, n / 0x10000 % 0x100, n / 0x100 % 0x100, n % 0x100]

/-- Big-endian 32-bit read of the first four bytes
(`BigEndian::read_u32(&buf[..4])`). -/
def readU32 : List Nat → Nat
  | a :: b :: c :: d :: _ => ((a * 0x100 + b) * 0x100 + c) * 0x100 + d
  | _ => 0

/-- Reinterpret an unsigned 32-bit value as a signed `i32`
(`BigEndian::read_i32`). -/
def i32OfU32 (u : Nat) : Int :=
  if u < 0x80000000 then (u : Int) else (u : Int) - 0x100000000

/-- `Argument::tag`: the type-tag byte of each variant. -/
def Argument.tag : Argument → Nat
  | .String _ => 115   -- 's'
  | .Integer _ => 105  -- 'i'
  | .Float _ => 102    -- 'f'
  | .Binary _ => 98    -- 'b'

/-- `Argument::encode`: string arguments append UTF-8 bytes plus a null
terminator (no padding here — the command loop pads); integers and floats
append 4 big-endian bytes (the integer in two's complement modulo `2^32`);
binaries append a big-endian `u32` length prefix (`b.len() as u32`, hence
modulo `2^32`) then the raw bytes. -/
def Argument.encode : Argument → List Nat → List Nat
  | .String s, buf => buf ++ utf8Encode s ++ [0]
  | .Integer i, buf => buf ++ bytesOfU32 (i.emod 0x100000000).toNat
  | .Float f, buf => buf ++ bytesOfU32 (f % 0x100000000)
  | .Binary b, buf => buf ++ bytesOfU32 (b.length % 0x100000000) ++ b

/-- `Argument::decode`: dispatch on the type-tag character. `'s'` defers to
`decode_string`; `'i'`/`'f'` read 4 big-endian bytes (`TruncatedBuffer` when
fewer remain, for Rust's `&buf[..4]` panic); `'b'` reads a 4-byte big-endian
length then that many bytes (`TruncatedBuffer` when either read runs out, for
`buf[4..][..len]`); any other tag is `UnsupportedType`. -/
def Argument.decode (type_tag : Nat) (buf : List Nat) :
    Except DecodeError (Argument × List Nat) :=
  if type_tag = 115 then       -- 's'
    match decode_string buf with
    | .error e => .error e
    | .ok (s, b) => .ok (.String s, b)
  else if type_tag = 105 then  -- 'i'
    if 4 ≤ buf.length then .ok (.Integer (i32OfU32 (readU32 buf)), buf.drop 4)
    else .error .TruncatedBuffer
  else if type_tag = 102 then  -- 'f'
    if 4 ≤ buf.length then .ok (.Float (readU32 buf), buf.drop 4)
    else .error .TruncatedBuffer
  else if type_tag = 98 then   -- 'b'
    if 4 ≤ buf.length then
      let len := readU32 buf
      if len ≤ buf.length - 4 then
        .ok (.Binary ((buf.drop 4).take len), buf.drop (4 + len))
      else .error .TruncatedBuffer
    else .error .TruncatedBuffer
  else .error (.UnsupportedType type_tag)

/-- `Command::encode`: the address pattern as a padded string; then the tag
block — `','`, one tag byte per argument, a null terminator, padding; then
each argument followed by one padding call. -/
def Command.encode (c : Command) (buf : List Nat) : List Nat :=
  let buf := encode_string c.address_pattern buf
  let buf := pad (buf ++ 44 :: c.arguments.map Argument.tag ++ [0])
  c.arguments.foldl (fun b a => pad (Argument.encode a b)) buf

/-- The argument-decoding loop of `Command::decode`: one argument per tag
character, threading the remaining buffer, stopping at the first error. -/
def decodeArgs : List Nat → List Nat → Except DecodeError (List Argument × List Nat)
  | [], buf => .ok ([], buf)
  | t :: ts, buf =>
    match Argument.decode t buf with
    | .error e => .error e
    | .ok (a, buf1) =>
      match decodeArgs ts buf1 with
      | .error e => .error e
      | .ok (rest, buf2) => .ok (a :: rest, buf2)

/-- `Command::decode`: address pattern, then the tag block — whose first
character must be `','` (`assert_eq!(",", &type_tags[..1])`; an empty or
non-comma-led block is `MalformedMessage`) — then one argument per remaining
tag character. -/
def Command.decode (buf : List Nat) : Except DecodeError Command :=
  match decode_string buf with
  | .error e => .error e
  | .ok (address_pattern, buf1) =>
    match decode_string buf1 with
    | .error e => .error e
    | .ok (type_tags, buf2) =>
      match type_tags with
      | t :: ts =>
        if t = 44 then
          match decodeArgs ts buf2 with
          | .error e => .error e
          | .ok (arguments, _) => .ok ⟨address_pattern, arguments⟩
        else .error .MalformedMessage
      | [] => .error .MalformedMessage

/-! ## Helper predicates and lemmas -/

/-- `idx` is the index of the first null byte of `buf`. -/
def firstNullAt (buf : List Nat) (idx : Nat) : Prop :=
  buf[idx]? = some 0 ∧ ∀ j, j < idx → buf[j]? ≠ some 0

lemma findNull_eq_none_iff (l : List Nat) : findNull l = none ↔ (0 : Nat) ∉ l := by
  induction l with
  | nil => simp [findNull]
  | cons b rest ih =>
    by_cases hb : b = 0
    · subst hb; simp [findNull]
    · simp only [findNull, hb, if_neg (by simpa using hb), List.mem_cons]
      cases h : findNull rest with
      | none => simp [h] at ih ⊢; tauto
      | some i => simp [h] at ih ⊢; tauto

lemma findNull_eq_some_iff (l : List Nat) (idx : Nat) :
    findNull l = some idx ↔ firstNullAt l idx := by
  induction l generalizing idx with
  | nil => simp [findNull, firstNullAt]
  | cons b rest ih =>
    by_cases hb : b = 0
    · subst hb
      simp only [findNull, if_pos rfl, firstNullAt]
      constructor
      · rintro h
        cases h
        simp
      · rintro ⟨h0, hlt⟩
        cases idx with
        | zero => rfl
        | succ i => exact absurd (by simp) (hlt 0 (Nat.succ_pos i))
    · simp only [findNull, if_neg hb, firstNullAt]
      cases idx with
      | zero =>
        simp only [List.getElem?_cons_zero]
        constructor
        · intro h
          cases hfn : findNull rest <;> simp [hfn] at h
        · rintro ⟨h0, _⟩
          exact absurd (by simpa using h0) hb
      | succ i =>
        rw [List.getElem?_cons_succ]
        constructor
        · intro h
          cases hfn : findNull rest with
          | none => simp [hfn] at h
          | some k =>
            simp only [hfn, Option.map_some] at h
            cases h
            obtain ⟨h0, hlt⟩ := (ih i).mp hfn
            refine ⟨h0, ?_⟩
            intro j hj
            cases j with
            | zero => simpa using hb
            | succ j' =>
              rw [List.getElem?_cons_succ]
              exact hlt j' (Nat.lt_of_succ_lt_succ hj)
        · rintro ⟨h0, hlt⟩
          have : findNull rest = some i := by
            refine (ih i).mpr ⟨h0, ?_⟩
            intro j hj
            have := hlt (j + 1) (Nat.succ_lt_succ hj)
            simpa using this
          simp [this]

lemma firstNullAt_unique (b : List Nat) (i j : Nat)
    (hi : firstNullAt b i) (hj : firstNullAt b j) : i = j := by
  have h1 := (findNull_eq_some_iff b i).mpr hi
  have h2 := (findNull_eq_some_iff b j).mpr hj
  rw [h1] at h2
  exact Option.some.inj h2

lemma pad_length_mod (buf : List Nat) : (pad buf).length % 4 = 0 := by
  unfold pad
  by_cases h : buf.length % 4 = 0
  · simp [h]
  · simp only [h, ne_eq, not_false_eq_true, if_pos, List.length_append,
      List.length_replicate]
    omega

lemma foldl_pad_encode_aligned (args : List Argument) (b : List Nat)
    (hb : b.length % 4 = 0) :
    (args.foldl (fun b a => pad (Argument.encode a b)) b).length % 4 = 0 := by
  induction args generalizing b with
  | nil => simpa using hb
  | cons a as ih => exact ih _ (pad_length_mod _)

/-- **C3.** After `pad`, the buffer length is a multiple of 4; a buffer whose
length is already a multiple of 4 is returned unchanged (never a full 4-byte
pad), and otherwise exactly `4 - length % 4` zero bytes are appended. -/
theorem pad_alignment_spec (buf : List Nat) :
    (pad buf).length % 4 = 0 ∧
    (buf.length % 4 = 0 → pad buf = buf) ∧
    (buf.length % 4 ≠ 0 → pad buf = buf ++ List.replicate (4 - buf.length % 4) 0) := by
  refine ⟨pad_length_mod buf, fun h => ?_, fun h => ?_⟩ <;> simp [pad, h]

/-- Witness for C3: `pad` at a length-3 buffer appends one zero byte, and at
an aligned buffer appends nothing. -/
theorem pad_alignment_spec_witness :
    pad [1, 2, 3] = [1, 2, 3] ++ List.replicate (4 - ([1, 2, 3] : List Nat).length % 4) 0 ∧
    pad [5, 6, 7, 8] = [5, 6, 7, 8] :=
  ⟨(pad_alignment_spec [1, 2, 3]).2.2 (by decide),
   (pad_alignment_spec [5, 6, 7, 8]).2.1 (by decide)⟩

/-- **C8.** Every buffer produced by `Command::encode`, from any command and
any initial buffer contents, has a final length that is a multiple of 4. -/
theorem encode_length_aligned (c : Command) (buf : List Nat) :
    (Command.encode c buf).length % 4 = 0 := by
  unfold Command.encode
  exact foldl_pad_encode_aligned _ _ (pad_length_mod _)

/-- **C9.** Encoding `Command { "/info", [] }` into an empty buffer produces
exactly the 12 bytes `2F 69 6E 66 6F 00 00 00 2C 00 00 00`: the address
`/info`, a null terminator, 2 pad bytes, then a comma, a null terminator and
2 pad bytes, with no argument bytes. -/
theorem encode_info_bytes :
    Command.encode ⟨[0x2F, 0x69, 0x6E, 0x66, 0x6F], []⟩ [] =
      [0x2F, 0x69, 0x6E, 0x66, 0x6F, 0x00, 0x00, 0x00, 0x2C, 0x00, 0x00, 0x00] := by
  rfl

/-- **C5.** For every type-tag character outside `{'s','i','f','b'}`,
`Argument::decode` fails with `UnsupportedType` carrying the offending
character; no `ok` remainder is produced, so no further bytes are consumed. -/
theorem decode_unknown_tag (t : Nat) (buf : List Nat)
    (hs : t ≠ 115) (hi : t ≠ 105) (hf : t ≠ 102) (hb : t ≠ 98) :
    Argument.decode t buf = .error (.UnsupportedType t) := by
  simp [Argument.decode, hs, hi, hf, hb]

/-- Witness for C5: tag `'x'` (120) is rejected with `UnsupportedType 120`. -/
theorem decode_unknown_tag_witness :
    Argument.decode 120 [1, 2, 3] = .error (.UnsupportedType 120) :=
  decode_unknown_tag 120 [1, 2, 3] (by decide) (by decide) (by decide) (by decide)

lemma firstNullAt_mem (b : List Nat) (idx : Nat) (h : firstNullAt b idx) :
    (0 : Nat) ∈ b := by
  obtain ⟨hn, he⟩ := List.getElem?_eq_some.mp h.1
  exact he ▸ List.getElem_mem hn

instance (buf : List Nat) (idx : Nat) : Decidable (firstNullAt buf idx) := by
  unfold firstNullAt
  infer_instance

lemma decode_string_of_not_mem (buf : List Nat) (h0 : (0 : Nat) ∉ buf) :
    decode_string buf = .error .MalformedMessage := by
  have hfn : findNull buf = none := (findNull_eq_none_iff buf).mpr h0
  simp [decode_string, hfn]

lemma decode_string_of_bad_utf8 (buf : List Nat) (idx : Nat)
    (h : firstNullAt buf idx) (hu : utf8Decode (buf.take idx) = none) :
    decode_string buf = .error .MalformedMessage := by
  have hfn : findNull buf = some idx := (findNull_eq_some_iff buf idx).mpr h
  simp [decode_string, hfn, hu]

lemma decode_string_of_aligned (buf : List Nat) (idx : Nat) (s : List Nat)
    (h : firstNullAt buf idx) (hu : utf8Decode (buf.take idx) = some s)
    (hm : idx % 4 = 0) :
    decode_string buf = .ok (s, buf.drop idx) := by
  have hfn : findNull buf = some idx := (findNull_eq_some_iff buf idx).mpr h
  simp [decode_string, hfn, hu, hm]

lemma decode_string_of_unaligned (buf : List Nat) (idx : Nat) (s : List Nat)
    (h : firstNullAt buf idx) (hu : utf8Decode (buf.take idx) = some s)
    (hm : idx % 4 ≠ 0) (hle : idx + (4 - idx % 4) ≤ buf.length) :
    decode_string buf = .ok (s, buf.drop (idx + (4 - idx % 4))) := by
  have hfn : findNull buf = some idx := (findNull_eq_some_iff buf idx).mpr h
  simp [decode_string, hfn, hu, hm, hle]

lemma decode_string_of_truncated (buf : List Nat) (idx : Nat) (s : List Nat)
    (h : firstNullAt buf idx) (hu : utf8Decode (buf.take idx) = some s)
    (hm : idx % 4 ≠ 0) (hgt : buf.length < idx + (4 - idx % 4)) :
    decode_string buf = .error .TruncatedBuffer := by
  have hfn : findNull buf = some idx := (findNull_eq_some_iff buf idx).mpr h
  have hnle : ¬ (idx + (4 - idx % 4) ≤ buf.length) := by omega
  simp [decode_string, hfn, hu, hm, hnle]

/-- **C2 (amended).** Full characterization of `decode_string`: with no null
byte anywhere it fails with `MalformedMessage`; with first null at `idx` and
invalid UTF-8 before it, `MalformedMessage`; with valid UTF-8 it returns the
decoded string and, when `idx % 4 ≠ 0`, the remainder past the terminator and
the alignment padding (`4 - idx % 4` bytes beyond the string content) —
failing with `TruncatedBuffer` when those bytes run past the end of the
buffer — but when `idx % 4 = 0` the remainder begins at the terminator
itself and no byte beyond the string content is consumed. -/
theorem decode_string_characterization (buf : List Nat) :
    ((0 : Nat) ∉ buf → decode_string buf = .error .MalformedMessage) ∧
    (∀ idx, firstNullAt buf idx →
      (utf8Decode (buf.take idx) = none →
        decode_string buf = .error .MalformedMessage) ∧
      (∀ s, utf8Decode (buf.take idx) = some s →
        (idx % 4 = 0 → decode_string buf = .ok (s, buf.drop idx)) ∧
        (idx % 4 ≠ 0 → idx + (4 - idx % 4) ≤ buf.length →
          decode_string buf = .ok (s, buf.drop (idx + (4 - idx % 4)))) ∧
        (idx % 4 ≠ 0 → buf.length < idx + (4 - idx % 4) →
          decode_string buf = .error .TruncatedBuffer))) :=
  ⟨decode_string_of_not_mem buf,
   fun idx hidx =>
     ⟨decode_string_of_bad_utf8 buf idx hidx,
      fun s hu =>
        ⟨decode_string_of_aligned buf idx s hidx hu,
         decode_string_of_unaligned buf idx s hidx hu,
         decode_string_of_truncated buf idx s hidx hu⟩⟩⟩

/-- C2 counterexample: at `[97, 98, 99, 100, 0, 0, 0, 0]` (the string "abcd",
its terminator at index 4 — a multiple of 4 — and three pad bytes) the claim
predicts remainder `[]` (past the terminator and padding); `decode_string`
instead returns `[0, 0, 0, 0]`, still beginning at the terminator. And at
`[97, 0]` — a null byte present, valid UTF-8 before it — the claim predicts
success, but `decode_string` fails (`TruncatedBuffer`: the padding skip runs
past the end of the buffer). -/
theorem decode_string_claim_counterexample :
    decode_string [97, 98, 99, 100, 0, 0, 0, 0] = .ok ([97, 98, 99, 100], [0, 0, 0, 0]) ∧
    decode_string [97, 98, 99, 100, 0, 0, 0, 0] ≠ .ok ([97, 98, 99, 100], []) ∧
    decode_string [97, 0] = .error .TruncatedBuffer := by
  have h1 : decode_string [97, 98, 99, 100, 0, 0, 0, 0] =
      .ok ([97, 98, 99, 100], [0, 0, 0, 0]) := rfl
  refine ⟨h1, ?_, rfl⟩
  rw [h1]
  simp

/-- Witness for C2 (amended): all three behaviors at concrete buffers — a
successful decode with padding skipped (`idx % 4 ≠ 0`), a `MalformedMessage`
on invalid UTF-8, and a `TruncatedBuffer` on a padding skip past the end. -/
theorem decode_string_characterization_witness :
    decode_string [97, 98, 99, 0] = .ok ([97, 98, 99], List.drop 4 [97, 98, 99, 0]) ∧
    decode_string [255, 0] = .error .MalformedMessage ∧
    decode_string [97, 0] = .error .TruncatedBuffer :=
  ⟨((((decode_string_characterization [97, 98, 99, 0]).2 3 (by decide)).2
      [97, 98, 99] rfl).2.1) (by decide) (by decide),
   (((decode_string_characterization [255, 0]).2 1 (by decide)).1) rfl,
   ((((decode_string_characterization [97, 0]).2 1 (by decide)).2
      [97] rfl).2.2) (by decide) (by decide)⟩

/-- **C10.** When the first null byte of the buffer sits at an index that is
a multiple of 4 and `decode_string` succeeds, the returned remainder is
`buf.drop idx`: it still begins at that null terminator, so zero bytes are
consumed beyond the string content — neither the terminator nor any padding
after it is skipped. -/
theorem decode_string_aligned_remainder (buf : List Nat) (idx : Nat)
    (s r : List Nat) (h1 : firstNullAt buf idx) (h2 : idx % 4 = 0)
    (h3 : decode_string buf = .ok (s, r)) :
    r = buf.drop idx ∧ r.head? = some 0 := by
  cases hu : utf8Decode (buf.take idx) with
  | none =>
    rw [decode_string_of_bad_utf8 buf idx h1 hu] at h3
    cases h3
  | some s' =>
    rw [decode_string_of_aligned buf idx s' h1 hu h2] at h3
    have hr : r = buf.drop idx := by
      have h4 := (Except.ok.injEq _ _).mp h3
      exact ((Prod.mk.injEq _ _ _ _).mp h4).2.symm
    refine ⟨hr, ?_⟩
    rw [hr, List.head?_drop]
    exact h1.1

/-- Witness for C10: at `[97, 98, 99, 100, 0, 0, 0, 0]` the first null is at
index 4 and the remainder still begins with that null byte. -/
theorem decode_string_aligned_remainder_witness :
    ([0, 0, 0, 0] : List Nat) = List.drop 4 [97, 98, 99, 100, 0, 0, 0, 0] ∧
    ([0, 0, 0, 0] : List Nat).head? = some 0 :=
  decode_string_aligned_remainder [97, 98, 99, 100, 0, 0, 0, 0] 4
    [97, 98, 99, 100] [0, 0, 0, 0] (by decide) (by decide) rfl

/-- **C1 (code bug).** The round-trip property fails: for the command
`Command { "/a", [Binary([0x01]), Integer(1)] }` — whose address pattern is
valid UTF-8 with no embedded NUL — encoding appends three pad bytes after the
5-byte Binary argument, but `Command::decode` skips no padding after a Binary
argument, so the following Integer is read from the pad bytes and decodes as
`0` instead of `1`: `decode(encode(c))` succeeds but yields a different
command. -/
theorem roundtrip_failure :
    Command.decode (Command.encode ⟨[47, 97], [.Binary [1], .Integer 1]⟩ []) =
      .ok ⟨[47, 97], [.Binary [1], .Integer 0]⟩ ∧
    (⟨[47, 97], [.Binary [1], .Integer 0]⟩ : Command) ≠
      ⟨[47, 97], [.Binary [1], .Integer 1]⟩ :=
  ⟨rfl, by decide⟩


lemma Argument.decode_ok_tag (t : Nat) (buf : List Nat) (a : Argument)
    (r : List Nat) (h : Argument.decode t buf = .ok (a, r)) : a.tag = t := by
  unfold Argument.decode at h
  by_cases hs : t = 115
  · subst hs
    rw [if_pos rfl] at h
    cases hd : decode_string buf with
    | error e => rw [hd] at h; cases h
    | ok p =>
      obtain ⟨s, b⟩ := p
      rw [hd] at h
      cases h
      rfl
  · rw [if_neg hs] at h
    by_cases hi : t = 105
    · subst hi
      rw [if_pos rfl] at h
      by_cases h4 : 4 ≤ buf.length
      · rw [if_pos h4] at h; cases h; rfl
      · rw [if_neg h4] at h; cases h
    · rw [if_neg hi] at h
      by_cases hf : t = 102
      · subst hf
        rw [if_pos rfl] at h
        by_cases h4 : 4 ≤ buf.length
        · rw [if_pos h4] at h; cases h; rfl
        · rw [if_neg h4] at h; cases h
      · rw [if_neg hf] at h
        by_cases hb : t = 98
        · subst hb
          rw [if_pos rfl] at h
          by_cases h4 : 4 ≤ buf.length
          · rw [if_pos h4] at h
            dsimp only at h
            by_cases hlen : readU32 buf ≤ buf.length - 4
            · rw [if_pos hlen] at h; cases h; rfl
            · rw [if_neg hlen] at h; cases h
          · rw [if_neg h4] at h; cases h
        · rw [if_neg hb] at h
          cases h

lemma decodeArgs_ok_map_tag (ts : List Nat) (buf : List Nat)
    (args : List Argument) (r : List Nat)
    (h : decodeArgs ts buf = .ok (args, r)) : args.map Argument.tag = ts := by
  induction ts generalizing buf args r with
  | nil =>
    unfold decodeArgs at h
    cases h
    rfl
  | cons t ts ih =>
    unfold decodeArgs at h
    cases hd : Argument.decode t buf with
    | error e => rw [hd] at h; cases h
    | ok p =>
      obtain ⟨a, b1⟩ := p
      rw [hd] at h
      dsimp only at h
      cases hr : decodeArgs ts b1 with
      | error e => rw [hr] at h; cases h
      | ok q =>
        obtain ⟨rest, b2⟩ := q
        rw [hr] at h
        dsimp only at h
        cases h
        simp only [List.map_cons]
        rw [Argument.decode_ok_tag t buf a b1 hd, ih b1 rest _ hr]

/-- **C4.** Whenever `Command::decode` succeeds, the decoded type-tag block
starts with `','`, and the arguments correspond one-to-one, in order, with the
tag sequence (the tag block with its leading comma stripped): mapping each
decoded argument to its tag character reproduces the tag sequence exactly —
so there are exactly `len(tag_sequence)` arguments and the i-th argument's
variant is the one implied by the i-th tag character
(`'s'`→String, `'i'`→Integer, `'f'`→Float, `'b'`→Binary). -/
theorem decode_tag_argument_correspondence (buf : List Nat) (c : Command)
    (s1 r1 tags r2 : List Nat)
    (h1 : decode_string buf = .ok (s1, r1))
    (h2 : decode_string r1 = .ok (tags, r2))
    (hc : Command.decode buf = .ok c) :
    tags.head? = some 44 ∧ c.arguments.map Argument.tag = tags.tail ∧
      c.arguments.length = tags.tail.length := by
  unfold Command.decode at hc
  rw [h1] at hc
  dsimp only at hc
  rw [h2] at hc
  dsimp only at hc
  cases tags with
  | nil => cases hc
  | cons t ts =>
    dsimp only at hc
    by_cases ht : t = 44
    · subst ht
      rw [if_pos rfl] at hc
      cases hr : decodeArgs ts r2 with
      | error e => rw [hr] at hc; cases hc
      | ok q =>
        obtain ⟨args, rr⟩ := q
        rw [hr] at hc
        dsimp only at hc
        cases hc
        have hmap := decodeArgs_ok_map_tag ts r2 args rr hr
        refine ⟨rfl, by simpa using hmap, ?_⟩
        have : (args.map Argument.tag).length = ts.length := by rw [hmap]
        simpa using this
    · rw [if_neg ht] at hc
      cases hc

/-- Witness for C4: decoding the buffer `"/a\0\0" ",i\0\0" 00 00 00 05`
yields one `Integer` argument matching the single `'i'` tag. -/
theorem decode_tag_argument_correspondence_witness :
    ([44, 105] : List Nat).head? = some 44 ∧
    (⟨[47, 97], [.Integer 5]⟩ : Command).arguments.map Argument.tag =
      ([44, 105] : List Nat).tail ∧
    (⟨[47, 97], [.Integer 5]⟩ : Command).arguments.length =
      ([44, 105] : List Nat).tail.length :=
  decode_tag_argument_correspondence
    [47, 97, 0, 0, 44, 105, 0, 0, 0, 0, 0, 5] ⟨[47, 97], [.Integer 5]⟩
    [47, 97] [44, 105, 0, 0, 0, 0, 0, 5] [44, 105] [0, 0, 0, 5] rfl rfl rfl

/-- A buffer whose leading string field is malformed in the sense of the
spec: no null terminator anywhere, or invalid UTF-8 before the first null. -/
def stringMalformed (b : List Nat) : Prop :=
  (0 : Nat) ∉ b ∨ ∃ idx, firstNullAt b idx ∧ utf8Decode (b.take idx) = none

lemma decode_string_malformed_iff (b : List Nat) :
    decode_string b = .error .MalformedMessage ↔ stringMalformed b := by
  cases hfn : findNull b with
  | none =>
    have h0 : (0 : Nat) ∉ b := (findNull_eq_none_iff b).mp hfn
    exact ⟨fun _ => Or.inl h0, fun _ => decode_string_of_not_mem b h0⟩
  | some idx =>
    have hfa : firstNullAt b idx := (findNull_eq_some_iff b idx).mp hfn
    have hmem : (0 : Nat) ∈ b := firstNullAt_mem b idx hfa
    cases hu : utf8Decode (b.take idx) with
    | none =>
      exact ⟨fun _ => Or.inr ⟨idx, hfa, hu⟩,
             fun _ => decode_string_of_bad_utf8 b idx hfa hu⟩
    | some s =>
      constructor
      · intro h
        by_cases hm : idx % 4 = 0
        · rw [decode_string_of_aligned b idx s hfa hu hm] at h; cases h
        · by_cases hle : idx + (4 - idx % 4) ≤ b.length
          · rw [decode_string_of_unaligned b idx s hfa hu hm hle] at h
            cases h
          · rw [decode_string_of_truncated b idx s hfa hu hm (by omega)] at h
            cases h
      · rintro (h0 | ⟨idx', hfa', hu'⟩)
        · exact absurd hmem h0
        · rw [firstNullAt_unique b idx' idx hfa' hfa, hu] at hu'
          cases hu'

lemma Argument.decode_malformed_iff (t : Nat) (b : List Nat) :
    Argument.decode t b = .error .MalformedMessage ↔
      t = 115 ∧ decode_string b = .error .MalformedMessage := by
  unfold Argument.decode
  by_cases hs : t = 115
  · subst hs
    rw [if_pos rfl]
    cases hd : decode_string b with
    | error e => simp
    | ok p => obtain ⟨s, b'⟩ := p; simp
  · rw [if_neg hs]
    by_cases hi : t = 105
    · subst hi
      rw [if_pos rfl]
      by_cases h4 : 4 ≤ b.length
      · rw [if_pos h4]; simp
      · rw [if_neg h4]; simp
    · rw [if_neg hi]
      by_cases hf : t = 102
      · subst hf
        rw [if_pos rfl]
        by_cases h4 : 4 ≤ b.length
        · rw [if_pos h4]; simp
        · rw [if_neg h4]; simp
      · rw [if_neg hf]
        by_cases hb : t = 98
        · subst hb
          rw [if_pos rfl]
          by_cases h4 : 4 ≤ b.length
          · rw [if_pos h4]
            dsimp only
            by_cases hlen : readU32 b ≤ b.length - 4
            · rw [if_pos hlen]; simp
            · rw [if_neg hlen]; simp
          · rw [if_neg h4]; simp
        · rw [if_neg hb]; simp [hs]

/-- The decode loop of `Command::decode` reports `MalformedMessage` exactly
when, after successfully decoding the arguments for some prefix of the tag
sequence, the next tag is `'s'` and the string field at the current position
is malformed (no null terminator, or invalid UTF-8). -/
def argsMalformed : List Nat → List Nat → Prop
  | [], _ => False
  | t :: ts, b =>
    (t = 115 ∧ stringMalformed b) ∨
    (∃ a b1, Argument.decode t b = .ok (a, b1) ∧ argsMalformed ts b1)

lemma decodeArgs_malformed_iff (ts : List Nat) (b : List Nat) :
    decodeArgs ts b = .error .MalformedMessage ↔ argsMalformed ts b := by
  induction ts generalizing b with
  | nil => simp [decodeArgs, argsMalformed]
  | cons t ts ih =>
    constructor
    · intro h
      unfold decodeArgs at h
      cases hd : Argument.decode t b with
      | error e =>
        rw [hd] at h
        dsimp only at h
        injection h with he
        subst he
        have hts := (Argument.decode_malformed_iff t b).mp hd
        exact Or.inl ⟨hts.1, (decode_string_malformed_iff b).mp hts.2⟩
      | ok p =>
        obtain ⟨a, b1⟩ := p
        rw [hd] at h
        dsimp only at h
        cases hr : decodeArgs ts b1 with
        | error e2 =>
          rw [hr] at h
          dsimp only at h
          injection h with he
          subst he
          exact Or.inr ⟨a, b1, hd, (ih b1).mp hr⟩
        | ok q =>
          obtain ⟨args, b2⟩ := q
          rw [hr] at h
          dsimp only at h
          cases h
    · intro h
      rcases h with ⟨ht, hsm⟩ | ⟨a, b1, hok, hrec⟩
      · have hd : Argument.decode t b = .error .MalformedMessage :=
          (Argument.decode_malformed_iff t b).mpr
            ⟨ht, (decode_string_malformed_iff b).mpr hsm⟩
        unfold decodeArgs
        rw [hd]
      · unfold decodeArgs
        rw [hok]
        dsimp only
        rw [(ih b1).mpr hrec]

/-- **C6.** `Command::decode` fails with `MalformedMessage` — surfaced as a
typed result in this embedding of the source's panics — exactly when: the
address-pattern string field is malformed (no null terminator anywhere /
invalid UTF-8 before it); or the tag-block string field is malformed in the
same way; or the decoded tag block's first character is not `','` (including
the empty block); or, while decoding arguments, an `'s'`-tagged string field
is malformed. -/
theorem command_decode_malformed_iff (buf : List Nat) :
    Command.decode buf = .error .MalformedMessage ↔
      (stringMalformed buf ∨
       (∃ s r, decode_string buf = .ok (s, r) ∧ stringMalformed r) ∨
       (∃ s r tags r2, decode_string buf = .ok (s, r) ∧
          decode_string r = .ok (tags, r2) ∧ tags.head? ≠ some 44) ∨
       (∃ s r ts r2, decode_string buf = .ok (s, r) ∧
          decode_string r = .ok (44 :: ts, r2) ∧ argsMalformed ts r2)) := by
  unfold Command.decode
  cases hd1 : decode_string buf with
  | error e =>
    dsimp only
    constructor
    · intro h
      injection h with he
      subst he
      exact Or.inl ((decode_string_malformed_iff buf).mp hd1)
    · rintro (h | ⟨s, r, hok, _⟩ | ⟨s, r, tags, r2, hok, _, _⟩ |
        ⟨s, r, ts, r2, hok, _, _⟩)
      · have h2 := (decode_string_malformed_iff buf).mpr h
        rw [hd1] at h2
        injection h2 with he
        rw [he]
      · cases hok
      · cases hok
      · cases hok
  | ok p =>
    obtain ⟨s0, r0⟩ := p
    have hnm1 : ¬ stringMalformed buf := by
      intro h
      have h2 := (decode_string_malformed_iff buf).mpr h
      rw [hd1] at h2
      cases h2
    dsimp only
    cases hd2 : decode_string r0 with
    | error e2 =>
      dsimp only
      constructor
      · intro h
        injection h with he
        subst he
        exact Or.inr (Or.inl ⟨s0, r0, rfl, (decode_string_malformed_iff r0).mp hd2⟩)
      · rintro (h | ⟨s, r, hok, hsm⟩ | ⟨s, r, tags, r2, hok, hok2, _⟩ |
          ⟨s, r, ts, r2, hok, hok2, _⟩)
        · exact absurd h hnm1
        · injection hok with hok'
          cases hok'
          have h2 := (decode_string_malformed_iff r0).mpr hsm
          rw [hd2] at h2
          injection h2 with he
          rw [he]
        · injection hok with hok'
          cases hok'
          rw [hd2] at hok2
          cases hok2
        · injection hok with hok'
          cases hok'
          rw [hd2] at hok2
          cases hok2
    | ok q =>
      obtain ⟨tags0, r20⟩ := q
      have hnm2 : ¬ stringMalformed r0 := by
        intro h
        have h2 := (decode_string_malformed_iff r0).mpr h
        rw [hd2] at h2
        cases h2
      dsimp only
      cases tags0 with
      | nil =>
        constructor
        · intro _
          exact Or.inr (Or.inr (Or.inl ⟨s0, r0, [], r20, rfl, hd2, by simp⟩))
        · intro _
          rfl
      | cons t ts0 =>
        dsimp only
        by_cases ht : t = 44
        · subst ht
          rw [if_pos rfl]
          cases hda : decodeArgs ts0 r20 with
          | error e3 =>
            dsimp only
            constructor
            · intro h
              injection h with he
              subst he
              exact Or.inr (Or.inr (Or.inr ⟨s0, r0, ts0, r20, rfl, hd2,
                (decodeArgs_malformed_iff ts0 r20).mp hda⟩))
            · rintro (h | ⟨s, r, hok, hsm⟩ | ⟨s, r, tags, r2, hok, hok2, hhd⟩ |
                ⟨s, r, ts, r2, hok, hok2, ham⟩)
              · exact absurd h hnm1
              · injection hok with hok'
                cases hok'
                exact absurd hsm hnm2
              · injection hok with hok'
                cases hok'
                rw [hd2] at hok2
                injection hok2 with hok2'
                cases hok2'
                simp at hhd
              · injection hok with hok'
                cases hok'
                rw [hd2] at hok2
                injection hok2 with hok2'
                cases hok2'
                have h2 := (decodeArgs_malformed_iff ts0 r20).mpr ham
                rw [hda] at h2
                injection h2 with he
                rw [he]
          | ok q2 =>
            obtain ⟨args, rr⟩ := q2
            dsimp only
            constructor
            · intro h
              cases h
            · rintro (h | ⟨s, r, hok, hsm⟩ | ⟨s, r, tags, r2, hok, hok2, hhd⟩ |
                ⟨s, r, ts, r2, hok, hok2, ham⟩)
              · exact absurd h hnm1
              · injection hok with hok'
                cases hok'
                exact absurd hsm hnm2
              · injection hok with hok'
                cases hok'
                rw [hd2] at hok2
                injection hok2 with hok2'
                cases hok2'
                simp at hhd
              · injection hok with hok'
                cases hok'
                rw [hd2] at hok2
                injection hok2 with hok2'
                cases hok2'
                have h2 := (decodeArgs_malformed_iff ts0 r20).mpr ham
                rw [hda] at h2
                cases h2
        · rw [if_neg ht]
          constructor
          · intro _
            exact Or.inr (Or.inr (Or.inl ⟨s0, r0, t :: ts0, r20, rfl, hd2,
              by simpa using ht⟩))
          · intro _
            rfl

/-- Witness for C6: the buffer `"/a\0\0" FF 00 00 00` has a well-formed
address but invalid UTF-8 (a lone `0xFF`) before the tag block's terminator,
so `Command::decode` reports `MalformedMessage`. -/
theorem command_decode_malformed_iff_witness :
    Command.decode [47, 97, 0, 0, 255, 0, 0, 0] = .error .MalformedMessage :=
  (command_decode_malformed_iff [47, 97, 0, 0, 255, 0, 0, 0]).mpr
    (Or.inr (Or.inl ⟨[47, 97], [255, 0, 0, 0], rfl, Or.inr ⟨1, by decide, rfl⟩⟩))

/-- **C7.** Whenever fewer bytes remain than a field requires, decoding fails
with `TruncatedBuffer` (the typed form of the source's slicing panics): in
`decode_string`, when the terminator-plus-padding skip exceeds the buffer; in
`Argument::decode` for `'i'`/`'f'`/`'b'`, when fewer than 4 bytes remain for
the fixed-size read or length prefix; and for `'b'`, when the length-prefixed
payload exceeds the remaining bytes. -/
theorem decode_truncation_spec :
    (∀ buf idx s, firstNullAt buf idx → utf8Decode (buf.take idx) = some s →
       idx % 4 ≠ 0 → buf.length < idx + (4 - idx % 4) →
       decode_string buf = .error .TruncatedBuffer) ∧
    (∀ buf : List Nat, buf.length < 4 →
       Argument.decode 105 buf = .error .TruncatedBuffer ∧
       Argument.decode 102 buf = .error .TruncatedBuffer ∧
       Argument.decode 98 buf = .error .TruncatedBuffer) ∧
    (∀ buf : List Nat, 4 ≤ buf.length → buf.length - 4 < readU32 buf →
       Argument.decode 98 buf = .error .TruncatedBuffer) := by
  refine ⟨fun buf idx s => decode_string_of_truncated buf idx s, ?_, ?_⟩
  · intro buf h4
    have h4' : ¬ 4 ≤ buf.length := by omega
    refine ⟨?_, ?_, ?_⟩ <;> simp [Argument.decode, h4']
  · intro buf h4 hlen
    have hnle : ¬ (readU32 buf ≤ buf.length - 4) := by omega
    simp [Argument.decode, h4, hnle]

/-- Witness for C7: a truncated padding skip in `decode_string`, a 2-byte
buffer for a 4-byte integer read, and a Binary whose length prefix (9)
exceeds the 2 remaining payload bytes. -/
theorem decode_truncation_spec_witness :
    decode_string [98, 0] = .error .TruncatedBuffer ∧
    Argument.decode 105 [1, 2] = .error .TruncatedBuffer ∧
    Argument.decode 98 [0, 0, 0, 9, 1, 2] = .error .TruncatedBuffer :=
  ⟨decode_truncation_spec.1 [98, 0] 1 [98] (by decide) rfl (by decide) (by decide),
   (decode_truncation_spec.2.1 [1, 2] (by decide)).1,
   decode_truncation_spec.2.2 [0, 0, 0, 9, 1, 2] (by decide) (by decide)⟩
